import Mathlib

/- Formal model of the mr_peabody repository: two client/server pairs relaying
   audio and text over TCP with sentinel-delimited framing.
   Byte streams are modelled as `List Nat` (one Nat per byte, < 256); decoded
   Python `str` values are modelled as `List Nat` of Unicode code points.
   A sequence of `recv` results is a `List (List Nat)`; an empty chunk models
   `recv` returning `b""` (peer closed), and exhausting the chunk list while
   the code would call `recv` again models blocking (`Option` result `none`). -/

namespace MrPeabody

/-- Python `sent in chunk` on bytes: `sent` occurs contiguously in the list. -/
def containsSeq (sent : List Nat) : List Nat → Bool
  | [] => sent.isPrefixOf []
  | b :: rest => sent.isPrefixOf (b :: rest) || containsSeq sent rest

/-- Python `chunk.split(sent)[0]`: the bytes strictly before the first
occurrence of `sent` (the whole list when `sent` does not occur). -/
def takeBeforeSeq (sent : List Nat) : List Nat → List Nat
  | [] => []
  | b :: rest => if sent.isPrefixOf (b :: rest) then [] else b :: takeBeforeSeq sent rest

/-- Python `data.split(sent, 1)[1]`: the bytes strictly after the first
occurrence of `sent` (the empty list when `sent` does not occur). -/
def dropThroughSeq (sent : List Nat) : List Nat → List Nat
  | [] => []
  | b :: rest =>
    if sent.isPrefixOf (b :: rest) then (b :: rest).drop sent.length
    else dropThroughSeq sent rest

/-- A way a byte stream can arrive from `recv` while the peer keeps the
connection open: nonempty chunks whose concatenation is the stream. -/
def isValidSplit (chunks : List (List Nat)) (stream : List Nat) : Prop :=
  (∀ c ∈ chunks, c ≠ []) ∧ chunks.flatten = stream

/-! ### The sentinel-delimited server receive loop

`stt_server.py handle_client` (the audio loop, sentinel `b"END"`) and
`tts_server.py handle_client` (the request loop, sentinel `b"END_REQUEST"`)
share the same shape:

    data = b""
    while True:
        chunk = client_socket.recv(4096)
        if SENT in chunk: data += chunk.split(SENT)[0]; break
        if not chunk: break
        data += chunk

`none` models the loop blocking in `recv` with no data left to deliver. -/
def recvUntilSentinel (sent : List Nat) (acc : List Nat) : List (List Nat) → Option (List Nat)
  | [] => none
  | c :: cs =>
    if containsSeq sent c then some (acc ++ takeBeforeSeq sent c)
    else if c = [] then some acc
    else recvUntilSentinel sent (acc ++ c) cs

/-! ### Protocol constants (ASCII byte values of the literals in the source) -/

/-- Code points of a Lean string literal (used for fixed messages). -/
def strCodes (s : String) : List Nat := s.toList.map Char.toNat

/-- Bytes of `b"END"` (stt_server.py). -/
def endSent : List Nat := [69, 78, 68]

/-- Bytes of `b"END_REQUEST"` (tts_server.py). -/
def endReqSent : List Nat := [69, 78, 68, 95, 82, 69, 81, 85, 69, 83, 84]

/-- Bytes of `b"END_AUDIO"` (tts_server.py / spkr_client.py). -/
def endAudioSent : List Nat := [69, 78, 68, 95, 65, 85, 68, 73, 79]

/-- Bytes of `b"END_TRANSCRIPTION"` (stt_server.py / mic_client.py). -/
def endTransSent : List Nat :=
  [69, 78, 68, 95, 84, 82, 65, 78, 83, 67, 82, 73, 80, 84, 73, 79, 78]

/-- Bytes of `b"ACK"` (stt_server.py / mic_client.py). -/
def ackBytes : List Nat := [65, 67, 75]

/-- Bytes of `"ERROR:"` (spkr_client.py startswith check). -/
def errorMark : List Nat := [69, 82, 82, 79, 82, 58]

/-- Bytes of `"VOICE_PARAMS||"` (tts_server.py containment check). -/
def vpMarker : List Nat := [86, 79, 73, 67, 69, 95, 80, 65, 82, 65, 77, 83, 124, 124]

/-- Bytes of `"VOICE_PARAMS"` alone (the marker before the delimiter). -/
def vpWord : List Nat := [86, 79, 73, 67, 69, 95, 80, 65, 82, 65, 77, 83]

/-- Bytes of `"en-US-Neural2-F"`, the default voice name in tts_server.py. -/
def defVoice : List Nat := [101, 110, 45, 85, 83, 45, 78, 101, 117, 114, 97, 108, 50, 45, 70]

/-- Bytes of `"en-US"`, the default language code in tts_server.py. -/
def defLang : List Nat := [101, 110, 45, 85, 83]

/-! ### Python numeric string parsing (`int(s)` and `float(s)`) -/

def isDigitCode (c : Nat) : Bool := 48 ≤ c && c ≤ 57

/-- A run of decimal digits allowing single underscores strictly between
digits (CPython numeric literal rule); the leading digit is consumed by the
caller. -/
def parseDigitsUAux (acc : Nat) (l : List Nat) : Option Nat :=
  match l with
  | [] => some acc
  | c :: rest =>
    if c = 95 then
      match rest with
      | c2 :: rest2 =>
        if isDigitCode c2 then parseDigitsUAux (10 * acc + (c2 - 48)) rest2 else none
      | [] => none
    else if isDigitCode c then parseDigitsUAux (10 * acc + (c - 48)) rest
    else none

def parseDigitsStart (l : List Nat) : Option Nat :=
  match l with
  | [] => none
  | c :: rest => if isDigitCode c then parseDigitsUAux (c - 48) rest else none

def isPyWs (c : Nat) : Bool := c = 32 || (9 ≤ c && c ≤ 13)

def stripWs (l : List Nat) : List Nat :=
  ((l.dropWhile isPyWs).reverse.dropWhile isPyWs).reverse

/-- Python `int(s)` on a decoded string: optional surrounding whitespace,
optional sign, then a nonempty digit run (underscores between digits). -/
def parsePyInt (s : List Nat) : Option Int :=
  match stripWs s with
  | [] => none
  | c :: rest =>
    if c = 43 then (parseDigitsStart rest).map Int.ofNat
    else if c = 45 then (parseDigitsStart rest).map (fun n => -(n : Int))
    else (parseDigitsStart (c :: rest)).map Int.ofNat

/-- Value of a Python float: exact rational for finite literals (binary
rounding is abstracted away), plus the special infinity/NaN results. -/
inductive PyFloat where
  | finite (q : ℚ)
  | inf
  | ninf
  | nan
deriving DecidableEq

/-- Greedy digit-underscore run for float fields: value, digit count, rest. -/
def takeUDigits (acc cnt : Nat) (l : List Nat) : Nat × Nat × List Nat :=
  match l with
  | [] => (acc, cnt, [])
  | c :: rest =>
    if c = 95 then
      match rest with
      | c2 :: rest2 =>
        if isDigitCode c2 then takeUDigits (10 * acc + (c2 - 48)) (cnt + 1) rest2
        else (acc, cnt, c :: rest)
      | [] => (acc, cnt, [c])
    else if isDigitCode c then takeUDigits (10 * acc + (c - 48)) (cnt + 1) rest
    else (acc, cnt, c :: rest)

def takeUDigitsStart (l : List Nat) : Nat × Nat × List Nat :=
  match l with
  | [] => (0, 0, [])
  | c :: rest => if isDigitCode c then takeUDigits (c - 48) 1 rest else (0, 0, c :: rest)

def lowerCode (c : Nat) : Nat := if 65 ≤ c ∧ c ≤ 90 then c + 32 else c

/-- Magnitude part of Python `float(s)` after stripping and sign removal. -/
def parsePyFloatMag (l : List Nat) (neg : Bool) : Option PyFloat :=
  let low := l.map lowerCode
  if low = [105, 110, 102] ∨ low = [105, 110, 102, 105, 110, 105, 116, 121] then
    some (if neg then .ninf else .inf)
  else if low = [110, 97, 110] then some .nan
  else
    let t1 := takeUDigitsStart l
    let ic := t1.2.1
    let t2 : Nat × Nat × List Nat :=
      match t1.2.2 with
      | 46 :: rtail =>
        let tf := takeUDigitsStart rtail
        (t1.1 * 10 ^ tf.2.1 + tf.1, tf.2.1, tf.2.2)
      | _ => (t1.1, 0, t1.2.2)
    let fc := t2.2.1
    if ic + fc = 0 then none
    else
      let mq : ℚ := (if neg then -(t2.1 : ℚ) else (t2.1 : ℚ)) / (10 : ℚ) ^ fc
      match t2.2.2 with
      | [] => some (.finite mq)
      | e :: etail =>
        if e = 101 ∨ e = 69 then
          let se : Bool × List Nat :=
            match etail with
            | 43 :: t => (false, t)
            | 45 :: t => (true, t)
            | t => (false, t)
          let te := takeUDigitsStart se.2
          if te.2.1 = 0 ∨ te.2.2 ≠ [] then none
          else
            let ev : Int := if se.1 then -(te.1 : Int) else (te.1 : Int)
            some (.finite (mq * (10 : ℚ) ^ ev))
        else none

/-- Python `float(s)`: optional whitespace, optional sign, then either an
inf/nan word or a decimal mantissa with optional fraction and exponent. -/
def parsePyFloat (s : List Nat) : Option PyFloat :=
  match stripWs s with
  | [] => none
  | c :: rest =>
    if c = 43 then parsePyFloatMag rest false
    else if c = 45 then parsePyFloatMag rest true
    else parsePyFloatMag (c :: rest) false

/-! ### UTF-8 (CPython strict utf-8 decode / encode) -/

/-- One decoding step of strict UTF-8: `rec` continues after the first
decoded code point (rejects overlong forms, surrogates, > U+10FFFF). -/
def utf8Step (rec : List Nat → Option (List Nat)) (l : List Nat) : Option (List Nat) :=
  match l with
  | [] => some []
  | b :: rest =>
    if b < 128 then (rec rest).map (b :: ·)
    else if b < 194 then none
    else if b < 224 then
      match rest with
      | b1 :: rest1 =>
        if 128 ≤ b1 ∧ b1 < 192 then
          (rec rest1).map (((b - 192) * 64 + (b1 - 128)) :: ·)
        else none
      | [] => none
    else if b < 240 then
      match rest with
      | b1 :: b2 :: rest2 =>
        if (128 ≤ b1 ∧ b1 < 192) ∧ (128 ≤ b2 ∧ b2 < 192) then
          let cp := (b - 224) * 4096 + (b1 - 128) * 64 + (b2 - 128)
          if 2048 ≤ cp ∧ (cp < 55296 ∨ 57344 ≤ cp) then (rec rest2).map (cp :: ·)
          else none
        else none
      | _ => none
    else if b < 245 then
      match rest with
      | b1 :: b2 :: b3 :: rest3 =>
        if (128 ≤ b1 ∧ b1 < 192) ∧ (128 ≤ b2 ∧ b2 < 192) ∧ (128 ≤ b3 ∧ b3 < 192) then
          let cp := (b - 240) * 262144 + (b1 - 128) * 4096 + (b2 - 128) * 64 + (b3 - 128)
          if 65536 ≤ cp ∧ cp < 1114112 then (rec rest3).map (cp :: ·)
          else none
        else none
      | _ => none
    else none

def utf8DecodeAux (fuel : Nat) (l : List Nat) : Option (List Nat) :=
  match fuel with
  | 0 => none
  | fuel + 1 => utf8Step (utf8DecodeAux fuel) l

/-- Strict UTF-8 decoding of bytes into code points; `none` models
`UnicodeDecodeError`. Each step consumes at least one byte, so
`l.length + 1` fuel always suffices. -/
def utf8Decode (l : List Nat) : Option (List Nat) := utf8DecodeAux (l.length + 1) l

/-- UTF-8 encoding of code points (total; inputs are valid scalar values in
the modelled programs). -/
def utf8Encode (l : List Nat) : List Nat :=
  match l with
  | [] => []
  | c :: rest =>
    (if c < 128 then [c]
     else if c < 2048 then [192 + c / 64, 128 + c % 64]
     else if c < 65536 then [224 + c / 4096, 128 + (c / 64) % 64, 128 + c % 64]
     else [240 + c / 262144, 128 + (c / 4096) % 64, 128 + (c / 64) % 64, 128 + c % 64])
      ++ utf8Encode rest

/-! ### Decimal rendering (Python `f"{n}"` for a nonnegative integer) -/

def decimalBytesAux (fuel n : Nat) : List Nat :=
  match fuel with
  | 0 => []
  | fuel + 1 => if n < 10 then [48 + n] else decimalBytesAux fuel (n / 10) ++ [48 + n % 10]

def decimalBytes (n : Nat) : List Nat := decimalBytesAux (n + 1) n

def digitsVal (l : List Nat) : Nat := l.foldl (fun a c => 10 * a + (c - 48)) 0

/-! ### Python `str.split(sep, maxsplit)` -/

def splitFirstSep (sep : List Nat) (l : List Nat) : Option (List Nat × List Nat) :=
  match l with
  | [] => none
  | c :: rest =>
    if sep.isPrefixOf (c :: rest) then some ([], (c :: rest).drop sep.length)
    else (splitFirstSep sep rest).map (fun p => (c :: p.1, p.2))

def pySplit (sep : List Nat) (maxsplit : Nat) (l : List Nat) : List (List Nat) :=
  match maxsplit with
  | 0 => [l]
  | m + 1 =>
    match splitFirstSep sep l with
    | none => [l]
    | some p => p.1 :: pySplit sep m p.2

/-- Unlimited `str.split(sep)`: a nonempty separator occurs at most
`l.length` times, so that many splits are enough. -/
def pySplitAll (sep : List Nat) (l : List Nat) : List (List Nat) :=
  pySplit sep l.length l

/-! ### tts_server.py: request parsing and reply framing (handle_client) -/

structure VoiceParams where
  voice_name : List Nat
  language_code : List Nat
  speaking_rate : PyFloat
  text : List Nat
deriving DecidableEq

/-- tts_server.py handle_client lines 74-92: decode the request, detect the
`VOICE_PARAMS||` marker anywhere in the text, split on `||` with maxsplit 4,
fall back to defaults for empty fields and unparsable rates. -/
def parseTtsRequest (request_text : List Nat) : VoiceParams :=
  if containsSeq vpMarker request_text = true then
    let parts := pySplit [124, 124] 4 request_text
    if 4 ≤ parts.length then
      { voice_name := if parts.getD 1 [] = [] then defVoice else parts.getD 1 []
        language_code := if parts.getD 2 [] = [] then defLang else parts.getD 2 []
        speaking_rate :=
          if parts.getD 3 [] = [] then .finite 1
          else
            match parsePyFloat (parts.getD 3 []) with
            | some r => r
            | none => .finite 1
        text := if 4 < parts.length then parts.getD 4 [] else [] }
    else
      { voice_name := defVoice, language_code := defLang, speaking_rate := .finite 1,
        text := request_text }
  else
    { voice_name := defVoice, language_code := defLang, speaking_rate := .finite 1,
      text := request_text }

/-- tts_server.py lines 106-112: `f"{audio_size}\n"` + audio + `END_AUDIO`. -/
def ttsSuccessFrame (audio : List Nat) : List Nat :=
  decimalBytes audio.length ++ [10] ++ audio ++ endAudioSent

/-- tts_server.py lines 117-120: `"ERROR: Error synthesizing speech: <e>"`. -/
def ttsErrorFrame (msg : List Nat) : List Nat :=
  utf8Encode (strCodes "ERROR: Error synthesizing speech: " ++ msg)

/-- The server body after the request is reassembled and decoded: parse the
voice parameters, call the external synthesis capability, and frame the
reply (success frame or `ERROR:` text frame). -/
def ttsProcessText (synth : VoiceParams → Except (List Nat) (List Nat))
    (request_text : List Nat) : List Nat :=
  match synth (parseTtsRequest request_text) with
  | .ok audio => ttsSuccessFrame audio
  | .error msg => ttsErrorFrame msg

/-- As above, starting from the reassembled request bytes; a decode failure
raises, reaching the outer handler, so no reply bytes are sent. -/
def ttsProcessRequest (synth : VoiceParams → Except (List Nat) (List Nat))
    (data : List Nat) : List Nat :=
  match utf8Decode data with
  | none => []
  | some txt => ttsProcessText synth txt

/-- One whole tts_server.py connection: reassemble until `END_REQUEST`,
then process; `none` models the recv loop blocking. -/
def ttsHandleClient (synth : VoiceParams → Except (List Nat) (List Nat))
    (chunks : List (List Nat)) : Option (List Nat) :=
  (recvUntilSentinel endReqSent [] chunks).map (ttsProcessRequest synth)

/-! ### spkr_client.py: send_text_and_play_speech receive path (lines 49-91) -/

/-- The size-line loop: accumulate until the buffer contains a newline;
an empty chunk (EOF) breaks out with whatever was read. Returns the buffer
and the chunks not yet consumed. -/
def recvSizeLoop (acc : List Nat) : List (List Nat) → Option (List Nat × List (List Nat))
  | [] => if containsSeq [10] acc = true then some (acc, []) else none
  | c :: cs =>
    if containsSeq [10] acc = true then some (acc, c :: cs)
    else if c = [] then some (acc, cs)
    else recvSizeLoop (acc ++ c) cs

/-- The audio loop body (entered when the initial remainder does not already
contain `END_AUDIO`): returns the bytes written to the temp file by the
loop; `none` models blocking in recv. -/
def recvAudioLoop (sent : List Nat) : List (List Nat) → Option (List Nat)
  | [] => none
  | c :: cs =>
    if c = [] then some []
    else if containsSeq sent c = true then some (takeBeforeSeq sent c)
    else (recvAudioLoop sent cs).map (c ++ ·)

/-- How the client disposes of the first reply line:
decode it, check the `ERROR:` text convention, then try `int()`. -/
inductive LineClass where
  | decodeFailed : LineClass
  | errorMsg (line : List Nat) : LineClass
  | sizeOk (n : Int) : LineClass
  | unparsed (line : List Nat) : LineClass
deriving DecidableEq

def classifySizeLine (lineBytes : List Nat) : LineClass :=
  match utf8Decode lineBytes with
  | none => .decodeFailed
  | some line =>
    if errorMark.isPrefixOf line then .errorMsg line
    else
      match parsePyInt line with
      | some n => .sizeOk n
      | none => .unparsed line

inductive SpkrOutcome where
  | decodeError : SpkrOutcome
  | serverError (line : List Nat) : SpkrOutcome
  | sizeParseError : SpkrOutcome
  | played (expected : Int) (file : List Nat) : SpkrOutcome
deriving DecidableEq

/-- The whole receive path of send_text_and_play_speech: size loop, first
line dispatch, then the audio loop writing to the temp file, whose final
contents are reported in `played`. Note the code writes the bytes left over
after the newline to the file before the loop and never rechecks them. -/
def spkrReceiveReply (chunks : List (List Nat)) : Option SpkrOutcome :=
  match recvSizeLoop [] chunks with
  | none => none
  | some (sizeData, rest) =>
    match classifySizeLine (takeBeforeSeq [10] sizeData) with
    | .decodeFailed => some .decodeError
    | .errorMsg line => some (.serverError line)
    | .unparsed _ => some .sizeParseError
    | .sizeOk n =>
      let audioData :=
        if containsSeq [10] sizeData = true then dropThroughSeq [10] sizeData else []
      if containsSeq endAudioSent audioData = true then some (.played n audioData)
      else
        match recvAudioLoop endAudioSent rest with
        | none => none
        | some w => some (.played n (audioData ++ w))

/-! ### mic_client.py: record_and_send (lines 43-69) -/

/-- Python `int()` truncation toward zero on an exact rational. -/
def pyTrunc (q : ℚ) : Int := Int.tdiv q.num (q.den : Int)

/-- Value of `int(RATE / CHUNK * duration)` with `RATE = 16000`, `CHUNK = 1024`. -/
def micNumChunks (duration : ℚ) : Int := pyTrunc ((16000 : ℚ) / 1024 * duration)

structure MicRun where
  aborted : Bool
  sent_after_header : List Nat
deriving DecidableEq

/-- record_and_send after the header was sent: compare the ack `recv` result
with `b"ACK"`; on mismatch return without sending audio, otherwise read
`int(RATE / CHUNK * duration)` chunks from the device and stream them,
then the `END` sentinel. -/
def recordAndSendAfterHeader (ack : List Nat) (duration : ℚ) (mic : Nat → List Nat) : MicRun :=
  if ack = ackBytes then
    { aborted := false
      sent_after_header := ((List.range (micNumChunks duration).toNat).map mic).flatten ++ endSent }
  else { aborted := true, sent_after_header := [] }

/-! ### stt_server.py: handle_client (lines 69-120) -/

/-- Model of `rate, channels, sample_width = map(int, splitting the decoded header on commas)`:
`none` models any exception (decode failure, wrong arity, bad int). -/
def parseFormatInfo (bs : List Nat) : Option (Int × Int × Int) :=
  match utf8Decode bs with
  | none => none
  | some s =>
    match pySplitAll [44] s with
    | [a, b, c] =>
      match parsePyInt a, parsePyInt b, parsePyInt c with
      | some r, some ch, some w => some (r, ch, w)
      | _, _, _ => none
    | _ => none

def le16 (n : Nat) : List Nat := [n % 256, n / 256 % 256]

def le32 (n : Nat) : List Nat :=
  [n % 256, n / 256 % 256, n / 65536 % 256, n / 16777216 % 256]

/-- The bytes the `wave` module writes for PCM data with the given
parameters (RIFF/WAVE header followed by the frames). -/
def wavFileBytes (channels sampwidth rate : Nat) (data : List Nat) : List Nat :=
  [82, 73, 70, 70] ++ le32 (36 + data.length) ++ [87, 65, 86, 69] ++
  [102, 109, 116, 32] ++ le32 16 ++ le16 1 ++ le16 channels ++ le32 rate ++
  le32 (rate * channels * sampwidth) ++ le16 (channels * sampwidth) ++
  le16 (sampwidth * 8) ++ [100, 97, 116, 97] ++ le32 data.length ++ data

/-- The `wave` setters raise unless channels ≥ 1, 1 ≤ sampwidth ≤ 4 and
framerate ≥ 1 (fmt is (rate, channels, sample_width)). -/
def wavParamsOk (fmt : Int × Int × Int) : Bool :=
  1 ≤ fmt.2.1 && 1 ≤ fmt.2.2 && fmt.2.2 ≤ 4 && 1 ≤ fmt.1

/-- Fixed-point rendering with 4 decimals (`{x:.4f}`), rounding half to
even on the exact rational value. -/
def pad4 (n : Nat) : List Nat :=
  (if n < 10 then [48, 48, 48] else if n < 100 then [48, 48]
   else if n < 1000 then [48] else []) ++ decimalBytes n

def formatFixed4 (q : ℚ) : List Nat :=
  let sgn : List Nat := if q < 0 then [45] else []
  let x : ℚ := |q| * 10000
  let fl : Int := x.floor
  let n : Nat := fl.toNat
  let diff : ℚ := x - (fl : ℚ)
  let scaled : Nat :=
    if 1 / 2 < diff then n + 1
    else if diff < 1 / 2 then n
    else if n % 2 = 0 then n else n + 1
  sgn ++ decimalBytes (scaled / 10000) ++ [46] ++ pad4 (scaled % 10000)

def transcriptionLines (i : Nat) (results : List (List Nat × ℚ)) : List Nat :=
  match results with
  | [] => []
  | (t, conf) :: rest =>
    strCodes "Result " ++ decimalBytes i ++ strCodes ":\n" ++
    strCodes "  Transcript: " ++ t ++ strCodes "\n" ++
    strCodes "  Confidence: " ++ formatFixed4 conf ++ strCodes "\n" ++
    transcriptionLines (i + 1) rest

def noResultsMsg : List Nat :=
  strCodes "No transcription results returned. The audio might be silent or unclear."

/-- stt_server.py transcribe_audio_file lines 44-62: format the results of
the external recognition call, with the fixed fallback message when the
result list is empty. -/
def transcriptionText (results : List (List Nat × ℚ)) : List Nat :=
  if results = [] then noResultsMsg else transcriptionLines 1 results

structure SttOutcome where
  ack_sent : Bool
  file_created : Bool
  file_removed : Bool
  reply : Option (List Nat)
  socket_closed : Bool
deriving DecidableEq

/-- One whole stt_server.py connection: parse the format header (exception
closes the socket before the ack), send `ACK`, reassemble audio until
`END`, write the temporary WAV file (created by `wave.open` even when a
setter then raises), call the external transcription capability, send the
reply, and only then delete the temporary file; any exception skips the
deletion and the `finally` closes the socket. `none` models blocking in
the recv loop. `transcribe` receives the WAV file contents as read back;
`send_ok` is whether the reply `sendall`s succeed. -/
def sttHandleClient (format_info : List Nat) (chunks : List (List Nat))
    (transcribe : List Nat → Except (List Nat) (List (List Nat × ℚ)))
    (send_ok : Bool) : Option SttOutcome :=
  match parseFormatInfo format_info with
  | none => some ⟨false, false, false, none, true⟩
  | some fmt =>
    match recvUntilSentinel endSent [] chunks with
    | none => none
    | some audio_data =>
      if wavParamsOk fmt = true then
        match transcribe (wavFileBytes fmt.2.1.toNat fmt.2.2.toNat fmt.1.toNat audio_data) with
        | .error _ => some ⟨true, true, false, none, true⟩
        | .ok results =>
          if send_ok then
            some ⟨true, true, true,
              some (utf8Encode (transcriptionText results) ++ endTransSent), true⟩
          else some ⟨true, true, false, none, true⟩
      else some ⟨true, true, false, none, true⟩


theorem isPrefixOf_iff_ex {p l : List Nat} : p.isPrefixOf l = true ↔ ∃ t, l = p ++ t := by
  induction p generalizing l with
  | nil => simp [List.isPrefixOf]
  | cons a as ih =>
    cases l with
    | nil => simp [List.isPrefixOf]
    | cons b bs =>
      simp only [List.isPrefixOf, Bool.and_eq_true, beq_iff_eq, ih, List.cons_append,
        List.cons.injEq]
      constructor
      · rintro ⟨rfl, t, rfl⟩; exact ⟨t, rfl, rfl⟩
      · rintro ⟨t, rfl, rfl⟩; exact ⟨rfl, t, rfl⟩

theorem isPrefixOf_self (l : List Nat) : l.isPrefixOf l = true :=
  isPrefixOf_iff_ex.mpr ⟨[], by simp⟩

theorem containsSeq_iff_ex {sent l : List Nat} :
    containsSeq sent l = true ↔ ∃ a b, l = a ++ sent ++ b := by
  induction l with
  | nil =>
    simp only [containsSeq, isPrefixOf_iff_ex]
    constructor
    · rintro ⟨t, ht⟩
      exact ⟨[], t, by simp [← ht]⟩
    · rintro ⟨a, b, h⟩
      have h2 : a ++ (sent ++ b) = [] := by rw [← List.append_assoc]; exact h.symm
      rcases List.append_eq_nil.mp h2 with ⟨rfl, h3⟩
      rcases List.append_eq_nil.mp h3 with ⟨rfl, rfl⟩
      exact ⟨[], rfl⟩
  | cons x xs ih =>
    simp only [containsSeq, Bool.or_eq_true, isPrefixOf_iff_ex, ih]
    constructor
    · rintro (⟨t, ht⟩ | ⟨a, b, rfl⟩)
      · exact ⟨[], t, by simpa using ht⟩
      · exact ⟨x :: a, b, by simp⟩
    · rintro ⟨a, b, hab⟩
      cases a with
      | nil => exact Or.inl ⟨b, by simpa using hab⟩
      | cons y ys =>
        simp only [List.cons_append, List.cons.injEq] at hab
        exact Or.inr ⟨ys, b, hab.2⟩

theorem containsSeq_of_within {sent l a m b : List Nat} (hl : l = a ++ m ++ b)
    (hm : containsSeq sent m = true) : containsSeq sent l = true := by
  rcases containsSeq_iff_ex.mp hm with ⟨x, y, rfl⟩
  exact containsSeq_iff_ex.mpr ⟨a ++ x, y ++ b, by simp [hl]⟩

theorem containsSeq_singleton_iff {x : Nat} {l : List Nat} :
    containsSeq [x] l = true ↔ x ∈ l := by
  constructor
  · intro h
    rcases containsSeq_iff_ex.mp h with ⟨a, b, rfl⟩
    simp
  · intro h
    rcases List.append_of_mem h with ⟨s, t, rfl⟩
    exact containsSeq_iff_ex.mpr ⟨s, t, by simp⟩

theorem containsSeq_append_self (sent s : List Nat) :
    containsSeq sent (s ++ sent) = true :=
  containsSeq_iff_ex.mpr ⟨s, [], by simp⟩

theorem takeBeforeSeq_of_not_contains {sent l : List Nat}
    (h : containsSeq sent l = false) : takeBeforeSeq sent l = l := by
  induction l with
  | nil => simp [takeBeforeSeq]
  | cons x xs ih =>
    simp only [containsSeq, Bool.or_eq_false_iff] at h
    simp [takeBeforeSeq, h.1, ih h.2]

/-- Splitting off everything up to a separator byte that is absent from `a`. -/
theorem takeBeforeSeq_single {x : Nat} {a b : List Nat} (h : x ∉ a) :
    takeBeforeSeq [x] (a ++ x :: b) = a := by
  induction a with
  | nil => simp [takeBeforeSeq, List.isPrefixOf]
  | cons y ys ih =>
    have hy : x ≠ y := fun hh => h (hh ▸ List.mem_cons_self y ys)
    have h2 : x ∉ ys := fun hm => h (List.mem_cons_of_mem y hm)
    simp [takeBeforeSeq, List.isPrefixOf, hy, ih h2]

theorem dropThroughSeq_single {x : Nat} {a b : List Nat} (h : x ∉ a) :
    dropThroughSeq [x] (a ++ x :: b) = b := by
  induction a with
  | nil => simp [dropThroughSeq, List.isPrefixOf]
  | cons y ys ih =>
    have hy : x ≠ y := fun hh => h (hh ▸ List.mem_cons_self y ys)
    have h2 : x ∉ ys := fun hm => h (List.mem_cons_of_mem y hm)
    simp [dropThroughSeq, List.isPrefixOf, hy, ih h2]

/-- Cutting two concatenations of one list at the shorter left part. -/
theorem append_eq_of_le {a x b y : List Nat} (h : a ++ x = b ++ y)
    (hl : a.length ≤ b.length) : ∃ m, b = a ++ m ∧ x = m ++ y := by
  induction a generalizing b with
  | nil => exact ⟨b, by simp, by simpa using h⟩
  | cons c cs ih =>
    cases b with
    | nil => simp at hl
    | cons d ds =>
      simp only [List.cons_append, List.cons.injEq] at h
      rcases h with ⟨rfl, h2⟩
      rcases ih h2 (by simpa using hl) with ⟨m, rfl, rfl⟩
      exact ⟨m, by simp⟩

/-- For a sentinel with no nontrivial border (no proper `drop k` of it begins
it again), the bytes before its first occurrence in `s ++ sent` are exactly
`s`, provided `s` itself does not contain the sentinel. -/
theorem takeBeforeSeq_boundary (sent : List Nat) (hne : sent ≠ [])
    (hnb : ∀ k, k < sent.length → 0 < k → (sent.drop k).isPrefixOf sent = false)
    (s : List Nat) (hs : containsSeq sent s = false) :
    takeBeforeSeq sent (s ++ sent) = s := by
  induction s with
  | nil =>
    cases sent with
    | nil => exact absurd rfl hne
    | cons a as => simp [takeBeforeSeq, isPrefixOf_self]
  | cons c cs ih =>
    have hs1 : sent.isPrefixOf (c :: cs) = false ∧ containsSeq sent cs = false := by
      simpa [containsSeq] using hs
    cases hB : sent.isPrefixOf ((c :: cs) ++ sent) with
    | true =>
      exfalso
      rcases isPrefixOf_iff_ex.mp hB with ⟨t, ht⟩
      rcases le_or_lt sent.length (c :: cs).length with hle | hlt
      · rcases append_eq_of_le ht.symm hle with ⟨m, hm, _⟩
        have : containsSeq sent (c :: cs) = true :=
          containsSeq_of_within (a := []) (m := sent) (b := m) (by simpa using hm) (by
            exact containsSeq_append_self sent [])
        rw [this] at hs; exact Bool.true_eq_false.mp hs
      · rcases append_eq_of_le ht.symm.symm (le_of_lt hlt) with ⟨m, hm1, hm2⟩
        have hkey := hnb (c :: cs).length hlt (by simp)
        have hdrop : sent.drop (c :: cs).length = m := by
          rw [hm1]; exact List.drop_left _ _
        have hpref : m.isPrefixOf sent = true := isPrefixOf_iff_ex.mpr ⟨t, hm2⟩
        rw [hdrop] at hkey; rw [hkey] at hpref; exact Bool.false_eq_true.mp hpref
    | false =>
      have hB2 : sent.isPrefixOf (c :: (cs ++ sent)) = false := by
        simpa using hB
      show takeBeforeSeq sent (c :: (cs ++ sent)) = c :: cs
      rw [takeBeforeSeq, if_neg (by simp [hB2]), ih hs1.2]

/-- Under the same no-border condition the sentinel first occurs exactly at
the end, so `s ++ sent` does contain it (used to exit the recv loops). -/
theorem containsSeq_boundary (sent s : List Nat) :
    containsSeq sent (s ++ sent) = true :=
  containsSeq_append_self sent s

theorem flatten_segment {bs : List (List Nat)} {b : List Nat} (h : b ∈ bs) :
    ∃ u v, bs.flatten = u ++ b ++ v := by
  induction bs with
  | nil => simp at h
  | cons c cs ih =>
    rcases List.mem_cons.mp h with rfl | h2
    · exact ⟨[], cs.flatten, by simp⟩
    · rcases ih h2 with ⟨u, v, huv⟩
      exact ⟨c ++ u, v, by simp [huv]⟩

theorem not_containsSeq_of_flatten {sent : List Nat} {bs : List (List Nat)} {b : List Nat}
    (h : b ∈ bs) (hf : containsSeq sent bs.flatten = false) :
    containsSeq sent b = false := by
  cases hb : containsSeq sent b with
  | false => rfl
  | true =>
    rcases flatten_segment h with ⟨u, v, huv⟩
    rw [containsSeq_of_within huv hb] at hf
    exact absurd hf (by simp)

theorem not_containsSeq_of_segment {sent l m a b : List Nat} (hl : l = a ++ m ++ b)
    (hfl : containsSeq sent l = false) : containsSeq sent m = false := by
  cases hm : containsSeq sent m with
  | false => rfl
  | true => rw [containsSeq_of_within hl hm] at hfl; exact absurd hfl (by simp)

theorem recvUntilSentinel_append (sent : List Nat) (bs rest : List (List Nat)) (acc : List Nat)
    (h1 : ∀ b ∈ bs, b ≠ []) (h2 : ∀ b ∈ bs, containsSeq sent b = false) :
    recvUntilSentinel sent acc (bs ++ rest) =
      recvUntilSentinel sent (acc ++ bs.flatten) rest := by
  induction bs generalizing acc with
  | nil => simp
  | cons b bs ih =>
    have hb1 : b ≠ [] := h1 b (List.mem_cons_self b bs)
    have hb2 : containsSeq sent b = false := h2 b (List.mem_cons_self b bs)
    have step : recvUntilSentinel sent acc ((b :: bs) ++ rest) =
        recvUntilSentinel sent (acc ++ b) (bs ++ rest) := by
      simp [recvUntilSentinel, hb2, hb1]
    rw [step, ih (acc ++ b) (fun x hx => h1 x (List.mem_cons_of_mem b hx))
      (fun x hx => h2 x (List.mem_cons_of_mem b hx))]
    simp

/-! ### Lemmas about the numeric parsers and the codec -/

theorem dropWhile_eq_self_of_all {p : Nat → Bool} {l : List Nat}
    (h : ∀ c ∈ l, p c = false) : l.dropWhile p = l := by
  cases l with
  | nil => rfl
  | cons c cs => simp [List.dropWhile_cons, h c (List.mem_cons_self c cs)]

theorem stripWs_eq_self {l : List Nat} (h : ∀ c ∈ l, isPyWs c = false) : stripWs l = l := by
  unfold stripWs
  rw [dropWhile_eq_self_of_all h,
    dropWhile_eq_self_of_all (fun c hc => h c (List.mem_reverse.mp hc)),
    List.reverse_reverse]

theorem isDigitCode_not_ws {c : Nat} (h : isDigitCode c = true) : isPyWs c = false := by
  simp only [isDigitCode, Bool.and_eq_true, decide_eq_true_eq] at h
  have h32 : c ≠ 32 := by omega
  have h13 : ¬ c ≤ 13 := by omega
  simp [isPyWs, h32, h13]

theorem parseDigitsUAux_digits {l : List Nat} (h : ∀ c ∈ l, isDigitCode c = true) (acc : Nat) :
    parseDigitsUAux acc l = some (l.foldl (fun a c => 10 * a + (c - 48)) acc) := by
  induction l generalizing acc with
  | nil => simp [parseDigitsUAux]
  | cons c cs ih =>
    have hc := h c (List.mem_cons_self c cs)
    have hc95 : c ≠ 95 := by
      have hcb : 48 ≤ c ∧ c ≤ 57 := by
        simpa only [isDigitCode, Bool.and_eq_true, decide_eq_true_eq] using hc
      omega
    rw [parseDigitsUAux.eq_def]
    simp only []
    simp [hc95, hc, ih (fun x hx => h x (List.mem_cons_of_mem c hx))]

theorem parseDigitsStart_digits {l : List Nat} (hne : l ≠ [])
    (h : ∀ c ∈ l, isDigitCode c = true) :
    parseDigitsStart l = some (digitsVal l) := by
  cases l with
  | nil => exact absurd rfl hne
  | cons c cs =>
    have hc := h c (List.mem_cons_self c cs)
    simp [parseDigitsStart, hc, digitsVal,
      parseDigitsUAux_digits (fun x hx => h x (List.mem_cons_of_mem c hx))]

theorem parsePyInt_digits {l : List Nat} (hne : l ≠ [])
    (h : ∀ c ∈ l, isDigitCode c = true) :
    parsePyInt l = some (Int.ofNat (digitsVal l)) := by
  have hstrip : stripWs l = l := stripWs_eq_self (fun c hc => isDigitCode_not_ws (h c hc))
  cases l with
  | nil => exact absurd rfl hne
  | cons c cs =>
    have hc := h c (List.mem_cons_self c cs)
    have hcb : 48 ≤ c ∧ c ≤ 57 := by
      simpa only [isDigitCode, Bool.and_eq_true, decide_eq_true_eq] using hc
    have h43 : c ≠ 43 := by omega
    have h45 : c ≠ 45 := by omega
    simp only [parsePyInt, hstrip]
    simp [h43, h45, parseDigitsStart_digits hne h]

theorem div_ten_lt_pow {fuel n : Nat} (h : n < 10 ^ (fuel + 1)) : n / 10 < 10 ^ fuel := by
  rw [Nat.div_lt_iff_lt_mul (by omega)]
  calc n < 10 ^ (fuel + 1) := h
    _ = 10 ^ fuel * 10 := by rw [pow_succ]

theorem decimalBytesAux_digits : ∀ fuel n, n < 10 ^ fuel →
    ∀ b ∈ decimalBytesAux fuel n, 48 ≤ b ∧ b ≤ 57 := by
  intro fuel
  induction fuel with
  | zero => intro n hn b hb; simp [decimalBytesAux] at hb
  | succ fuel ih =>
    intro n hn b hb
    rw [decimalBytesAux] at hb
    by_cases h : n < 10
    · simp [h] at hb; omega
    · simp only [h, if_false] at hb
      rcases List.mem_append.mp hb with h1 | h2
      · exact ih (n / 10) (div_ten_lt_pow hn) b h1
      · have hb2 : b = 48 + n % 10 := by simpa using h2
        have hm : n % 10 < 10 := Nat.mod_lt n (by omega)
        omega

theorem lt_ten_pow_succ_self (n : Nat) : n < 10 ^ (n + 1) := by
  have h1 : n + 1 ≤ 10 ^ n := Nat.succ_le_of_lt (Nat.lt_pow_self (by omega) n)
  have h2 : 10 ^ n ≤ 10 ^ (n + 1) := Nat.pow_le_pow_right (by omega) (Nat.le_succ n)
  omega

theorem decimalBytes_digits (n : Nat) : ∀ b ∈ decimalBytes n, 48 ≤ b ∧ b ≤ 57 :=
  decimalBytesAux_digits (n + 1) n (lt_ten_pow_succ_self n)

theorem decimalBytes_ne_nil (n : Nat) : decimalBytes n ≠ [] := by
  rw [decimalBytes, decimalBytesAux]
  by_cases h : n < 10 <;> simp [h]

theorem ten_not_mem_decimalBytes (n : Nat) : (10 : Nat) ∉ decimalBytes n := by
  intro h
  have := decimalBytes_digits n 10 h
  omega

theorem foldl_decimalBytesAux : ∀ fuel n, n < 10 ^ fuel → ∀ a : Nat,
    (decimalBytesAux fuel n).foldl (fun x c => 10 * x + (c - 48)) a =
      a * 10 ^ (decimalBytesAux fuel n).length + n := by
  intro fuel
  induction fuel with
  | zero =>
    intro n hn a
    have hn0 : n = 0 := by simpa using hn
    simp [decimalBytesAux, hn0]
  | succ fuel ih =>
    intro n hn a
    rw [decimalBytesAux]
    by_cases h : n < 10
    · simp [h]; omega
    · simp only [h, if_false]
      rw [List.foldl_append, ih (n / 10) (div_ten_lt_pow hn) a]
      have hdm : 10 * (n / 10) + n % 10 = n := Nat.div_add_mod n 10
      have hsub : 48 + n % 10 - 48 = n % 10 := by omega
      simp only [List.foldl_cons, List.foldl_nil, List.length_append, List.length_cons,
        List.length_nil, hsub]
      rw [pow_succ]
      calc 10 * (a * 10 ^ (decimalBytesAux fuel (n / 10)).length + n / 10) + n % 10
          = a * (10 ^ (decimalBytesAux fuel (n / 10)).length * 10) + (10 * (n / 10) + n % 10) := by
            ring
        _ = a * (10 ^ (decimalBytesAux fuel (n / 10)).length * 10) + n := by rw [hdm]

theorem digitsVal_decimalBytes (n : Nat) : digitsVal (decimalBytes n) = n := by
  have h := foldl_decimalBytesAux (n + 1) n (lt_ten_pow_succ_self n) 0
  simpa [digitsVal, decimalBytes] using h

theorem parsePyInt_decimalBytes (n : Nat) : parsePyInt (decimalBytes n) = some (Int.ofNat n) := by
  rw [parsePyInt_digits (decimalBytes_ne_nil n) (fun c hc => by
    have := decimalBytes_digits n c hc
    simp only [isDigitCode, Bool.and_eq_true, decide_eq_true_eq]
    omega)]
  rw [digitsVal_decimalBytes]

theorem utf8DecodeAux_ascii_append {p : List Nat} (hp : ∀ b ∈ p, b < 128) :
    ∀ (k : Nat) (l : List Nat),
      utf8DecodeAux (p.length + k) (p ++ l) = (utf8DecodeAux k l).map (p ++ ·) := by
  induction p with
  | nil =>
    intro k l
    cases h : utf8DecodeAux k l <;> simp [h]
  | cons b bs ih =>
    intro k l
    have hb := hp b (List.mem_cons_self b bs)
    have hfuel : (b :: bs).length + k = (bs.length + k) + 1 := by simp; omega
    rw [hfuel, List.cons_append]
    show utf8DecodeAux ((bs.length + k) + 1) (b :: (bs ++ l)) = _
    rw [utf8DecodeAux]
    simp only [utf8Step]
    rw [if_pos hb, ih (fun x hx => hp x (List.mem_cons_of_mem b hx)) k l]
    cases h : utf8DecodeAux k l <;> simp [h]

theorem utf8Decode_ascii_append {p : List Nat} (hp : ∀ b ∈ p, b < 128) (l : List Nat) :
    utf8Decode (p ++ l) = (utf8Decode l).map (p ++ ·) := by
  have h := utf8DecodeAux_ascii_append hp (l.length + 1) l
  unfold utf8Decode
  rw [show (p ++ l).length + 1 = p.length + (l.length + 1) by
    rw [List.length_append]; omega]
  exact h

theorem utf8Decode_ascii {l : List Nat} (h : ∀ b ∈ l, b < 128) :
    utf8Decode l = some l := by
  have h2 := utf8Decode_ascii_append h []
  rw [List.append_nil] at h2
  rw [h2, show utf8Decode [] = some [] from rfl]
  simp
/-! ### Helper lemmas for the claim proofs -/

theorem recvSizeLoop_append (bs rest : List (List Nat)) (acc : List Nat)
    (h1 : ∀ b ∈ bs, b ≠ [])
    (h2 : containsSeq [10] (acc ++ bs.flatten) = false) :
    recvSizeLoop acc (bs ++ rest) = recvSizeLoop (acc ++ bs.flatten) rest := by
  induction bs generalizing acc with
  | nil => simp
  | cons b bs ih =>
    have hb : b ≠ [] := h1 b (List.mem_cons_self b bs)
    have hacc : containsSeq [10] acc = false :=
      not_containsSeq_of_segment (l := acc ++ (b :: bs).flatten) (a := [])
        (m := acc) (b := (b :: bs).flatten) (by simp) h2
    have h2b : containsSeq [10] ((acc ++ b) ++ bs.flatten) = false := by
      have : (acc ++ b) ++ bs.flatten = acc ++ (b :: bs).flatten := by simp
      rw [this]; exact h2
    show recvSizeLoop acc ((b :: bs) ++ rest) = _
    rw [List.cons_append, recvSizeLoop]
    rw [if_neg (by simp [hacc]), if_neg (by simp [hb])]
    rw [ih (acc ++ b) (fun x hx => h1 x (List.mem_cons_of_mem b hx)) h2b]
    have : (acc ++ b) ++ bs.flatten = acc ++ (b :: bs).flatten := by simp
    rw [this]

theorem recvAudioLoop_append (sent : List Nat) (bs rest : List (List Nat))
    (h1 : ∀ b ∈ bs, b ≠ []) (h2 : ∀ b ∈ bs, containsSeq sent b = false) :
    recvAudioLoop sent (bs ++ rest) = (recvAudioLoop sent rest).map (bs.flatten ++ ·) := by
  induction bs with
  | nil => cases h : recvAudioLoop sent rest <;> simp [h]
  | cons b bs ih =>
    have hb1 : b ≠ [] := h1 b (List.mem_cons_self b bs)
    have hb2 := h2 b (List.mem_cons_self b bs)
    show recvAudioLoop sent ((b :: bs) ++ rest) = _
    rw [List.cons_append, recvAudioLoop]
    rw [if_neg (by simp [hb1]), if_neg (by simp [hb2])]
    rw [ih (fun x hx => h1 x (List.mem_cons_of_mem b hx))
      (fun x hx => h2 x (List.mem_cons_of_mem b hx))]
    cases h : recvAudioLoop sent rest <;> simp [h]

theorem exists_first_split {x : Nat} (bs : List (List Nat)) (h : x ∈ bs.flatten) :
    ∃ bs₀ bk bs₁, bs = bs₀ ++ bk :: bs₁ ∧ x ∉ bs₀.flatten ∧ x ∈ bk := by
  induction bs with
  | nil => simp at h
  | cons b bs ih =>
    by_cases hb : x ∈ b
    · exact ⟨[], b, bs, by simp, by simp, hb⟩
    · have h2 : x ∈ bs.flatten := by
        rcases List.mem_flatten.mp h with ⟨lst, hlst, hx⟩
        rcases List.mem_cons.mp hlst with rfl | h4
        · exact absurd hx hb
        · exact List.mem_flatten.mpr ⟨lst, h4, hx⟩
      rcases ih h2 with ⟨bs₀, bk, bs₁, heq, hn, hm⟩
      exact ⟨b :: bs₀, bk, bs₁, by rw [heq, List.cons_append], by simp [hb, hn], hm⟩

theorem split_at_first_mem {D tail pre post : List Nat} {x : Nat} (hD : x ∉ D)
    (heq : pre ++ post = D ++ x :: tail) (hx : x ∈ pre) :
    ∃ r, pre = D ++ x :: r ∧ r ++ post = tail := by
  induction D generalizing pre post tail with
  | nil =>
    cases pre with
    | nil => simp at hx
    | cons p ps =>
      simp only [List.cons_append, List.nil_append, List.cons.injEq] at heq
      rcases heq with ⟨rfl, h2⟩
      exact ⟨ps, rfl, h2⟩
  | cons d D ih =>
    cases pre with
    | nil => simp at hx
    | cons p ps =>
      simp only [List.cons_append, List.cons.injEq] at heq
      rcases heq with ⟨rfl, h2⟩
      have hxps : x ∈ ps := by
        rcases List.mem_cons.mp hx with h3 | h3
        · exact absurd (by rw [h3]; exact List.mem_cons_self p D) hD
        · exact h3
      have hD2 : x ∉ D := fun hm => hD (List.mem_cons_of_mem p hm)
      rcases ih hD2 h2 hxps with ⟨r, hr1, hr2⟩
      exact ⟨r, by rw [hr1, List.cons_append], hr2⟩

theorem splitFirstSep_bars {a : List Nat} (h : (124 : Nat) ∉ a) (r : List Nat) :
    splitFirstSep [124, 124] (a ++ 124 :: 124 :: r) = some (a, r) := by
  induction a with
  | nil => simp [splitFirstSep, List.isPrefixOf]
  | cons c cs ih =>
    have hc : (124 : Nat) ≠ c := fun hh => h (hh.symm ▸ List.mem_cons_self c cs)
    have h2 : (124 : Nat) ∉ cs := fun hm => h (List.mem_cons_of_mem c hm)
    simp [splitFirstSep, List.isPrefixOf, hc, ih h2]

theorem pySplit_succ_found (sep : List Nat) (m : Nat) {l a b : List Nat}
    (h : splitFirstSep sep l = some (a, b)) :
    pySplit sep (m + 1) l = a :: pySplit sep m b := by
  simp [pySplit, h]

theorem pySplit_vp (v l r t : List Nat) (hv : (124 : Nat) ∉ v) (hl : (124 : Nat) ∉ l)
    (hr : (124 : Nat) ∉ r) :
    pySplit [124, 124] 4
      (vpWord ++ 124 :: 124 :: (v ++ 124 :: 124 :: (l ++ 124 :: 124 :: (r ++ 124 :: 124 :: t)))) =
      [vpWord, v, l, r, t] := by
  have hw : (124 : Nat) ∉ vpWord := by decide
  rw [show (4 : Nat) = 3 + 1 from rfl, pySplit_succ_found _ 3 (splitFirstSep_bars hw _)]
  rw [show (3 : Nat) = 2 + 1 from rfl, pySplit_succ_found _ 2 (splitFirstSep_bars hv _)]
  rw [show (2 : Nat) = 1 + 1 from rfl, pySplit_succ_found _ 1 (splitFirstSep_bars hl _)]
  rw [show (1 : Nat) = 0 + 1 from rfl, pySplit_succ_found _ 0 (splitFirstSep_bars hr _)]
  rfl

theorem vpMarker_eq : vpMarker = vpWord ++ [124, 124] := by decide

/-- The server-observed parameters of a well-formed extended request whose
three option fields contain no `|` byte. -/
theorem parseTtsRequest_extended (v l r t : List Nat) (hv : (124 : Nat) ∉ v)
    (hl : (124 : Nat) ∉ l) (hr : (124 : Nat) ∉ r) :
    parseTtsRequest
      (vpMarker ++ v ++ [124, 124] ++ l ++ [124, 124] ++ r ++ [124, 124] ++ t) =
      ⟨if v = [] then defVoice else v,
       if l = [] then defLang else l,
       (if r = [] then PyFloat.finite 1
        else match parsePyFloat r with
          | some x => x
          | none => PyFloat.finite 1),
       t⟩ := by
  have hshape : vpMarker ++ v ++ [124, 124] ++ l ++ [124, 124] ++ r ++ [124, 124] ++ t =
      vpWord ++ 124 :: 124 :: (v ++ 124 :: 124 :: (l ++ 124 :: 124 :: (r ++ 124 :: 124 :: t))) := by
    rw [vpMarker_eq]; simp
  rw [hshape]
  have hcont : containsSeq vpMarker
      (vpWord ++ 124 :: 124 :: (v ++ 124 :: 124 :: (l ++ 124 :: 124 :: (r ++ 124 :: 124 :: t)))) = true := by
    refine containsSeq_iff_ex.mpr ⟨[], v ++ 124 :: 124 :: (l ++ 124 :: 124 :: (r ++ 124 :: 124 :: t)), ?_⟩
    rw [vpMarker_eq]; simp
  unfold parseTtsRequest
  rw [hcont, if_pos rfl, pySplit_vp v l r t hv hl hr]
  simp [List.getD]

theorem recvSizeLoop_exit (acc : List Nat) (l : List (List Nat))
    (h : containsSeq [10] acc = true) : recvSizeLoop acc l = some (acc, l) := by
  cases l with
  | nil => simp [recvSizeLoop, h]
  | cons d ds => simp [recvSizeLoop, h]

theorem errorMark_not_decimal (n : Nat) :
    errorMark.isPrefixOf (decimalBytes n) = false := by
  cases hd : decimalBytes n with
  | nil => exact absurd hd (decimalBytes_ne_nil n)
  | cons c cs =>
    have hc : 48 ≤ c ∧ c ≤ 57 := decimalBytes_digits n c (hd ▸ List.mem_cons_self c cs)
    cases hB : errorMark.isPrefixOf (c :: cs) with
    | false => rfl
    | true =>
      rcases isPrefixOf_iff_ex.mp hB with ⟨t, ht⟩
      simp only [errorMark, List.cons_append, List.cons.injEq] at ht
      omega

theorem classify_decimal (n : Nat) :
    classifySizeLine (decimalBytes n) = .sizeOk (Int.ofNat n) := by
  unfold classifySizeLine
  rw [utf8Decode_ascii (fun b hb => by have := decimalBytes_digits n b hb; omega)]
  simp [errorMark_not_decimal n, parsePyInt_decimalBytes n]

/-! ### Claim theorems -/

/-- C3 (amended): for every text request that does not CONTAIN the substring
`VOICE_PARAMS||` (the code tests containment, not a prefix), the synthesis
server observes the defaults and the full text, exactly as it does for the
extended request `VOICE_PARAMS||||||||<text>` with all three option fields
empty. -/
theorem C3_no_marker_equiv_extended_empty (T : List Nat)
    (h : containsSeq vpMarker T = false) :
    parseTtsRequest T = ⟨defVoice, defLang, .finite 1, T⟩ ∧
    parseTtsRequest (vpMarker ++ [124, 124, 124, 124, 124, 124] ++ T) =
      ⟨defVoice, defLang, .finite 1, T⟩ := by
  constructor
  · unfold parseTtsRequest
    simp [h]
  · have heq : vpMarker ++ [124, 124, 124, 124, 124, 124] ++ T =
        vpMarker ++ [] ++ [124, 124] ++ [] ++ [124, 124] ++ [] ++ [124, 124] ++ T := by simp
    rw [heq, parseTtsRequest_extended [] [] [] T (by simp) (by simp) (by simp)]
    simp

/-- Witness for C3 at the concrete request `"hi"`. -/
theorem C3_witness :
    parseTtsRequest [104, 105] = ⟨defVoice, defLang, .finite 1, [104, 105]⟩ ∧
    parseTtsRequest (vpMarker ++ [124, 124, 124, 124, 124, 124] ++ [104, 105]) =
      ⟨defVoice, defLang, .finite 1, [104, 105]⟩ :=
  C3_no_marker_equiv_extended_empty [104, 105] (by decide)

/-- C3 counterexample: the request `"xVOICE_PARAMS||a||b||2||t"` does not
START with the marker, yet the server parses it as an extended request
(voice `"a"`), so it is not equivalent to the extended-empty form, which
keeps the default voice. -/
theorem C3_counterexample :
    vpMarker.isPrefixOf
        [120, 86, 79, 73, 67, 69, 95, 80, 65, 82, 65, 77, 83, 124, 124, 97, 124, 124,
          98, 124, 124, 50, 124, 124, 116] = false ∧
    (parseTtsRequest
        [120, 86, 79, 73, 67, 69, 95, 80, 65, 82, 65, 77, 83, 124, 124, 97, 124, 124,
          98, 124, 124, 50, 124, 124, 116]).voice_name ≠
      (parseTtsRequest (vpMarker ++ [124, 124, 124, 124, 124, 124] ++
        [120, 86, 79, 73, 67, 69, 95, 80, 65, 82, 65, 77, 83, 124, 124, 97, 124, 124,
          98, 124, 124, 50, 124, 124, 116])).voice_name := by
  constructor
  · decide
  · decide

/-- C4: the dispatch of the speech client on the first reply line is exclusive:
a line whose bytes begin with `ERROR:` is never interpreted as a decimal
length, and a line made of decimal digits is always interpreted as the
declared size (never as an error). -/
theorem C4_first_line_dispatch (lineBytes : List Nat) :
    (errorMark.isPrefixOf lineBytes = true →
      ∀ n, classifySizeLine lineBytes ≠ .sizeOk n) ∧
    (lineBytes ≠ [] → (∀ b ∈ lineBytes, isDigitCode b = true) →
      classifySizeLine lineBytes = .sizeOk (Int.ofNat (digitsVal lineBytes))) := by
  constructor
  · intro hpre n
    rcases isPrefixOf_iff_ex.mp hpre with ⟨t, rfl⟩
    have hasc : ∀ b ∈ errorMark, b < 128 := by decide
    unfold classifySizeLine
    rw [utf8Decode_ascii_append hasc t]
    cases hdt : utf8Decode t with
    | none => simp
    | some dt =>
      have hpre2 : errorMark.isPrefixOf (errorMark ++ dt) = true :=
        isPrefixOf_iff_ex.mpr ⟨dt, rfl⟩
      simp [hpre2]
  · intro hne hdig
    have hasc : ∀ b ∈ lineBytes, b < 128 := fun b hb => by
      have h := hdig b hb
      simp only [isDigitCode, Bool.and_eq_true, decide_eq_true_eq] at h
      omega
    unfold classifySizeLine
    rw [utf8Decode_ascii hasc]
    cases hLB : lineBytes with
    | nil => exact absurd hLB hne
    | cons c cs =>
      subst hLB
      have hc := hdig c (List.mem_cons_self c cs)
      have hc69 : c ≠ 69 := by
        simp only [isDigitCode, Bool.and_eq_true, decide_eq_true_eq] at hc
        omega
      have hnp : errorMark.isPrefixOf (c :: cs) = false := by
        cases hB : errorMark.isPrefixOf (c :: cs) with
        | false => rfl
        | true =>
          rcases isPrefixOf_iff_ex.mp hB with ⟨t, ht⟩
          simp only [errorMark, List.cons_append, List.cons.injEq] at ht
          exact absurd ht.1 hc69
      simp [hnp, parsePyInt_digits hne hdig]

/-- Witness for C4: the line `"ERROR: boom"` is never a size; `"100"` is
dispatched as the size 100. -/
theorem C4_witness :
    (∀ n, classifySizeLine (strCodes "ERROR: boom") ≠ .sizeOk n) ∧
    classifySizeLine [49, 48, 48] = .sizeOk 100 := by
  constructor
  · exact (C4_first_line_dispatch (strCodes "ERROR: boom")).1 (by decide)
  · have h := (C4_first_line_dispatch [49, 48, 48]).2 (by decide) (by decide)
    rw [h]
    decide

/-- C6: the reply of the synthesis server is a function of the reassembled
request alone (there is no cross-connection state): two connections whose
recv loops deliver the same request bytes get the same complete reply —
in particular replies of equal length. -/
theorem C6_same_request_same_reply (synth : VoiceParams → Except (List Nat) (List Nat))
    (c1 c2 : List (List Nat)) (d : List Nat)
    (h1 : recvUntilSentinel endReqSent [] c1 = some d)
    (h2 : recvUntilSentinel endReqSent [] c2 = some d) :
    ttsHandleClient synth c1 = some (ttsProcessRequest synth d) ∧
    ttsHandleClient synth c1 = ttsHandleClient synth c2 ∧
    (ttsHandleClient synth c1).map List.length =
      (ttsHandleClient synth c2).map List.length := by
  refine ⟨?_, ?_, ?_⟩ <;> simp [ttsHandleClient, h1, h2]

/-- Witness for C6: the same request `"hi"` delivered in different chunkings
yields identical complete replies. -/
theorem C6_witness :
    ttsHandleClient (fun _ => .ok [7]) [[104, 105] ++ endReqSent] =
      ttsHandleClient (fun _ => .ok [7]) [[104], [105] ++ endReqSent] :=
  (C6_same_request_same_reply (fun _ => .ok [7]) [[104, 105] ++ endReqSent]
    [[104], [105] ++ endReqSent] [104, 105] (by decide) (by decide)).2.1

/-- C7: after sending the format header, the audio client proceeds to stream
audio exactly when the acknowledgment bytes are exactly `ACK`; anything else
makes it return without sending any audio. -/
theorem C7_ack_exact_or_abort (ack : List Nat) (duration : ℚ) (mic : Nat → List Nat) :
    (ack ≠ ackBytes → recordAndSendAfterHeader ack duration mic = ⟨true, []⟩) ∧
    (ack = ackBytes → recordAndSendAfterHeader ack duration mic =
      ⟨false, ((List.range (micNumChunks duration).toNat).map mic).flatten ++ endSent⟩) := by
  constructor
  · intro h; simp [recordAndSendAfterHeader, h]
  · intro h; simp [recordAndSendAfterHeader, h]

/-- Witness for C7: a 2-byte ack aborts; the exact `ACK` proceeds. -/
theorem C7_witness :
    recordAndSendAfterHeader [65, 67] 0 (fun _ => []) = ⟨true, []⟩ ∧
    recordAndSendAfterHeader ackBytes 0 (fun _ => []) =
      ⟨false, ((List.range (micNumChunks 0).toNat).map (fun _ => ([] : List Nat))).flatten
          ++ endSent⟩ := by
  constructor
  · exact (C7_ack_exact_or_abort [65, 67] 0 (fun _ => [])).1 (by decide)
  · exact (C7_ack_exact_or_abort ackBytes 0 (fun _ => [])).2 rfl

/-- C8: an extended request whose rate field is nonempty but not a valid
Python float keeps the default rate 1.0, the other supplied fields are
honoured, and synthesis proceeds to a normal success frame (no error
reply). -/
theorem C8_malformed_rate (v l r t : List Nat)
    (hv : (124 : Nat) ∉ v) (hl : (124 : Nat) ∉ l) (hr : (124 : Nat) ∉ r)
    (hrne : r ≠ []) (hrbad : parsePyFloat r = none) :
    parseTtsRequest (vpMarker ++ v ++ [124, 124] ++ l ++ [124, 124] ++ r ++ [124, 124] ++ t) =
      ⟨if v = [] then defVoice else v, if l = [] then defLang else l, .finite 1, t⟩ ∧
    ∀ (synth : VoiceParams → Except (List Nat) (List Nat)) (audio : List Nat),
      synth ⟨if v = [] then defVoice else v, if l = [] then defLang else l,
        .finite 1, t⟩ = .ok audio →
      ttsProcessText synth
        (vpMarker ++ v ++ [124, 124] ++ l ++ [124, 124] ++ r ++ [124, 124] ++ t) =
        ttsSuccessFrame audio := by
  have hparse := parseTtsRequest_extended v l r t hv hl hr
  rw [if_neg hrne, hrbad] at hparse
  constructor
  · exact hparse
  · intro synth audio hsynth
    unfold ttsProcessText
    rw [hparse, hsynth]

/-- Witness for C8 at voice `"a"`, empty language, rate field `"x"` and
text `"hi"`. -/
theorem C8_witness :
    parseTtsRequest
      (vpMarker ++ [97] ++ [124, 124] ++ [] ++ [124, 124] ++ [120] ++ [124, 124] ++ [104, 105]) =
      ⟨[97], defLang, .finite 1, [104, 105]⟩ := by
  have h := (C8_malformed_rate [97] [] [120] [104, 105] (by decide) (by decide) (by decide)
    (by decide) (by decide)).1
  simpa using h

/-- C1 (amended): when the payload contains no `END` and the stream is split
into nonempty recv chunks whose last chunk carries the whole 3-byte sentinel
(length ≥ 3), the transcription server reassembles exactly the payload.
(The per-chunk sentinel test misses a sentinel split across chunks, so the
original "for every split" claim fails; see the counterexample.) -/
theorem C1_reassembly_sentinel_in_one_chunk (P : List Nat) (bs : List (List Nat))
    (c : List Nat)
    (hP : containsSeq endSent P = false)
    (hsplit : isValidSplit (bs ++ [c]) (P ++ endSent))
    (hc : 3 ≤ c.length) :
    recvUntilSentinel endSent [] (bs ++ [c]) = some P := by
  obtain ⟨hne, hflat⟩ := hsplit
  have hflat2 : bs.flatten ++ c = P ++ endSent := by
    simpa using hflat
  have hlen : bs.flatten.length ≤ P.length := by
    have h := congrArg List.length hflat2
    simp only [List.length_append] at h
    have h3 : endSent.length = 3 := by decide
    omega
  obtain ⟨m, hm1, hm2⟩ := append_eq_of_le hflat2 hlen
  have hmnc : containsSeq endSent m = false :=
    not_containsSeq_of_segment (l := P) (a := bs.flatten) (m := m) (b := [])
      (by simp [hm1]) hP
  have hfnc : containsSeq endSent bs.flatten = false :=
    not_containsSeq_of_segment (l := P) (a := []) (m := bs.flatten) (b := m)
      (by simp [hm1]) hP
  have hbs : ∀ b ∈ bs, containsSeq endSent b = false := fun b hb =>
    not_containsSeq_of_flatten hb hfnc
  rw [recvUntilSentinel_append endSent bs [c] []
    (fun b hb => hne b (List.mem_append.mpr (Or.inl hb))) hbs]
  have hcontains : containsSeq endSent c = true := by
    rw [hm2]; exact containsSeq_append_self _ _
  have htake : takeBeforeSeq endSent c = m := by
    rw [hm2]
    exact takeBeforeSeq_boundary endSent (by decide) (by decide) m hmnc
  simp [recvUntilSentinel, hcontains, htake, hm1]

/-- Witness for C1 at payload `[0,1,2]` split as `[0,1] / [2,E,N,D]`. -/
theorem C1_witness :
    recvUntilSentinel endSent [] [[0, 1], [2, 69, 78, 68]] = some [0, 1, 2] :=
  C1_reassembly_sentinel_in_one_chunk [0, 1, 2] [[0, 1]] [2, 69, 78, 68]
    (by decide) ⟨by decide, by decide⟩ (by decide)

/-- C1 counterexample: payload `[65]` does not contain `END`, the chunks
`[65,69] / [78,68]` are a valid split of payload + sentinel, yet the server
never sees `END` inside a single chunk, so it keeps blocking in recv
instead of reassembling `[65]`. -/
theorem C1_counterexample :
    isValidSplit [[65, 69], [78, 68]] ([65] ++ endSent) ∧
    containsSeq endSent [65] = false ∧
    recvUntilSentinel endSent [] [[65, 69], [78, 68]] ≠ some [65] := by
  refine ⟨⟨by decide, by decide⟩, by decide, by decide⟩

/-- C5: a zero-second capture sends zero audio chunks (the stream after the
header is just `END`), and the transcription server still answers: with the
external capability returning no results it sends the fixed no-results
message followed by `END_TRANSCRIPTION` and closes, rather than hanging. -/
theorem C5_zero_duration_defined_reply :
    micNumChunks 0 = 0 ∧
    recordAndSendAfterHeader ackBytes 0 (fun _ => []) = ⟨false, endSent⟩ ∧
    transcriptionText [] = noResultsMsg ∧
    sttHandleClient [49, 54, 48, 48, 48, 44, 49, 44, 50] [[69, 78, 68]]
      (fun _ => .ok []) true =
      some ⟨true, true, true, some (utf8Encode noResultsMsg ++ endTransSent), true⟩ := by
  have h0 : micNumChunks 0 = 0 := by
    simp [micNumChunks, pyTrunc]
  refine ⟨h0, ?_, rfl, ?_⟩
  · rw [recordAndSendAfterHeader, if_pos rfl, h0]
    simp
  · rfl

/-- C9: on the transcription server the temporary WAV file is removed only
when receive, transcribe and the reply send all succeed; if transcription
raises or the send fails, the handler closes the socket but the file stays
on disk. -/
theorem C9_temp_file_cleanup (format_info : List Nat) (chunks : List (List Nat))
    (transcribe : List Nat → Except (List Nat) (List (List Nat × ℚ))) (send_ok : Bool)
    (fmt : Int × Int × Int) (audio : List Nat)
    (hfmt : parseFormatInfo format_info = some fmt)
    (hwav : wavParamsOk fmt = true)
    (hrecv : recvUntilSentinel endSent [] chunks = some audio) :
    (∀ e, transcribe (wavFileBytes fmt.2.1.toNat fmt.2.2.toNat fmt.1.toNat audio) = .error e →
      sttHandleClient format_info chunks transcribe send_ok =
        some ⟨true, true, false, none, true⟩) ∧
    (∀ results,
      transcribe (wavFileBytes fmt.2.1.toNat fmt.2.2.toNat fmt.1.toNat audio) = .ok results →
      send_ok = false →
      sttHandleClient format_info chunks transcribe send_ok =
        some ⟨true, true, false, none, true⟩) ∧
    (∀ results,
      transcribe (wavFileBytes fmt.2.1.toNat fmt.2.2.toNat fmt.1.toNat audio) = .ok results →
      send_ok = true →
      sttHandleClient format_info chunks transcribe send_ok =
        some ⟨true, true, true,
          some (utf8Encode (transcriptionText results) ++ endTransSent), true⟩) := by
  refine ⟨?_, ?_, ?_⟩
  · intro e he
    simp [sttHandleClient, hfmt, hrecv, hwav, he]
  · intro results hres hsend
    simp [sttHandleClient, hfmt, hrecv, hwav, hres, hsend]
  · intro results hres hsend
    simp [sttHandleClient, hfmt, hrecv, hwav, hres, hsend]

/-- Witness for C9: with header `"16000,1,2"` and stream `END`, a raising
transcription leaves the file and a successful run removes it. -/
theorem C9_witness :
    sttHandleClient [49, 54, 48, 48, 48, 44, 49, 44, 50] [[69, 78, 68]]
      (fun _ => .error []) true = some ⟨true, true, false, none, true⟩ ∧
    sttHandleClient [49, 54, 48, 48, 48, 44, 49, 44, 50] [[69, 78, 68]]
      (fun _ => .ok [([104], 1)]) true =
      some ⟨true, true, true,
        some (utf8Encode (transcriptionText [([104], 1)]) ++ endTransSent), true⟩ := by
  constructor
  · exact (C9_temp_file_cleanup [49, 54, 48, 48, 48, 44, 49, 44, 50] [[69, 78, 68]]
      (fun _ => .error []) true (16000, 1, 2) [] (by decide) (by decide) (by decide)).1 [] rfl
  · exact (C9_temp_file_cleanup [49, 54, 48, 48, 48, 44, 49, 44, 50] [[69, 78, 68]]
      (fun _ => .ok [([104], 1)]) true (16000, 1, 2) [] (by decide) (by decide)
      (by decide)).2.2 [([104], 1)] rfl rfl

/-- C10 (amended): if the synthesis server closes before any newline, the
size loop terminates at the empty read with everything received as the size
line; when those bytes decode as UTF-8 and are neither `ERROR:`-prefixed
nor a valid decimal integer (including the empty case) the client aborts
with a size-parse failure instead of blocking. (Bytes that are not valid
UTF-8 instead raise an uncaught decode error; see the counterexample.) -/
theorem C10_eof_before_newline (bs : List (List Nat))
    (hne : ∀ b ∈ bs, b ≠ [])
    (hnl : containsSeq [10] bs.flatten = false) :
    recvSizeLoop [] (bs ++ [[]]) = some (bs.flatten, []) ∧
    takeBeforeSeq [10] bs.flatten = bs.flatten ∧
    (∀ line, utf8Decode bs.flatten = some line →
      errorMark.isPrefixOf line = false →
      parsePyInt line = none →
      spkrReceiveReply (bs ++ [[]]) = some .sizeParseError) := by
  have hloop : recvSizeLoop [] (bs ++ [[]]) = some (bs.flatten, []) := by
    rw [recvSizeLoop_append bs [[]] [] hne (by simpa using hnl)]
    simp [recvSizeLoop, hnl]
  have htake : takeBeforeSeq [10] bs.flatten = bs.flatten :=
    takeBeforeSeq_of_not_contains hnl
  refine ⟨hloop, htake, ?_⟩
  intro line hdec herr hparse
  unfold spkrReceiveReply classifySizeLine
  rw [hloop]
  simp [htake, hdec, herr, hparse]

/-- Witness for C10: the server sends `"x"` and closes; the client exits the
size loop and reports a size-parse failure. -/
theorem C10_witness : spkrReceiveReply [[120], []] = some .sizeParseError :=
  (C10_eof_before_newline [[120]] (by decide) (by decide)).2.2 [120]
    (by decide) (by decide) (by decide)

/-- C10 counterexample: the byte `0xFF` before EOF is neither
`ERROR:`-prefixed nor a decimal integer, yet the client does not abort with
a size-parse failure: the decode step raises first. -/
theorem C10_counterexample :
    errorMark.isPrefixOf [255] = false ∧
    spkrReceiveReply [[255], []] = some .decodeError ∧
    SpkrOutcome.decodeError ≠ SpkrOutcome.sizeParseError := by
  refine ⟨by decide, by decide, by decide⟩

/-- C2 (amended): the synthesis server frames a successful reply as the
ASCII decimal length, a newline, the audio bytes and `END_AUDIO`; and the
client reconstructs exactly the payload (parsing the declared length only
as a hint) whenever the size line with its newline is delivered before the
final chunk and the final recv chunk carries the whole 9-byte sentinel.
(Other splits fail: the bytes received together with the size line are
written to the file unchecked; see the counterexample.) -/
theorem C2_length_prefixed_reply :
    (∀ (synth : VoiceParams → Except (List Nat) (List Nat)) (data txt audio : List Nat),
      utf8Decode data = some txt → synth (parseTtsRequest txt) = .ok audio →
      ttsProcessRequest synth data =
        decimalBytes audio.length ++ [10] ++ audio ++ endAudioSent) ∧
    (∀ (A : List Nat) (bs : List (List Nat)) (c : List Nat),
      containsSeq endAudioSent A = false →
      isValidSplit (bs ++ [c]) (ttsSuccessFrame A) →
      9 ≤ c.length →
      (decimalBytes A.length).length + 1 ≤ bs.flatten.length →
      spkrReceiveReply (bs ++ [c]) = some (.played (Int.ofNat A.length) A)) := by
  constructor
  · intro synth data txt audio hdec hsynth
    simp [ttsProcessRequest, ttsProcessText, hdec, hsynth, ttsSuccessFrame]
  · intro A bs c hA hsplit hc hnl
    obtain ⟨hne, hflat⟩ := hsplit
    have hstream : ttsSuccessFrame A = decimalBytes A.length ++ 10 :: (A ++ endAudioSent) := by
      simp [ttsSuccessFrame]
    have hflat2 : bs.flatten ++ c = decimalBytes A.length ++ 10 :: (A ++ endAudioSent) := by
      rw [← hstream, ← hflat]; simp
    have hlens := congrArg List.length hflat2
    simp only [List.length_append, List.length_cons] at hlens
    have hS9 : endAudioSent.length = 9 := by decide
    have h10D : (10 : Nat) ∉ decimalBytes A.length := ten_not_mem_decimalBytes _
    -- the newline byte is inside bs.flatten
    obtain ⟨m0, hm01, hm02⟩ := append_eq_of_le hflat2.symm (by omega)
    have h10bs : (10 : Nat) ∈ bs.flatten := by
      cases hm0 : m0 with
      | nil =>
        rw [hm0] at hm01
        have hl01 := congrArg List.length hm01
        simp only [List.length_append, List.length_nil] at hl01
        omega
      | cons x xs =>
        rw [hm0] at hm02 hm01
        simp only [List.cons_append, List.cons.injEq] at hm02
        rw [hm01, ← hm02.1]
        exact List.mem_append.mpr (Or.inr (List.mem_cons_self 10 xs))
    obtain ⟨bs₀, bk, bs₁, hbseq, hbs₀, hbk⟩ := exists_first_split bs h10bs
    subst hbseq
    have hne₀ : ∀ b ∈ bs₀, b ≠ [] := fun b hb =>
      hne b (List.mem_append.mpr (Or.inl (List.mem_append.mpr (Or.inl hb))))
    have hbkne : bk ≠ [] := hne bk (by simp)
    have hne₁ : ∀ b ∈ bs₁, b ≠ [] := fun b hb => hne b (by simp [hb])
    have hacc0 : containsSeq [10] bs₀.flatten = false := by
      cases hcc : containsSeq [10] bs₀.flatten with
      | false => rfl
      | true => exact absurd (containsSeq_singleton_iff.mp hcc) hbs₀
    have h10sd : (10 : Nat) ∈ bs₀.flatten ++ bk := List.mem_append.mpr (Or.inr hbk)
    have hsd10 : containsSeq [10] (bs₀.flatten ++ bk) = true :=
      containsSeq_singleton_iff.mpr h10sd
    -- run the size-line loop
    have hsize : recvSizeLoop [] ((bs₀ ++ bk :: bs₁) ++ [c]) =
        some (bs₀.flatten ++ bk, bs₁ ++ [c]) := by
      have hshape2 : (bs₀ ++ bk :: bs₁) ++ [c] = bs₀ ++ (bk :: (bs₁ ++ [c])) := by simp
      rw [hshape2]
      rw [recvSizeLoop_append bs₀ (bk :: (bs₁ ++ [c])) [] hne₀ (by simpa using hacc0)]
      show recvSizeLoop ([] ++ bs₀.flatten) (bk :: (bs₁ ++ [c])) = _
      rw [List.nil_append, recvSizeLoop]
      rw [if_neg (by simp [hacc0]), if_neg (by simp [hbkne])]
      exact recvSizeLoop_exit _ _ hsd10
    -- locate the size line inside the received prefix
    have hsd_seg : (bs₀.flatten ++ bk) ++ (bs₁.flatten ++ c) =
        decimalBytes A.length ++ 10 :: (A ++ endAudioSent) := by
      rw [← hflat2]; simp
    obtain ⟨r, hr1, hr2⟩ := split_at_first_mem h10D hsd_seg h10sd
    have hline : takeBeforeSeq [10] (bs₀.flatten ++ bk) = decimalBytes A.length := by
      rw [hr1]; exact takeBeforeSeq_single h10D
    have hdropr : dropThroughSeq [10] (bs₀.flatten ++ bk) = r := by
      rw [hr1]; exact dropThroughSeq_single h10D
    -- length bookkeeping: the remainder r is a proper prefix of A
    have hflen : ((bs₀ ++ bk :: bs₁).flatten).length =
        bs₀.flatten.length + bk.length + bs₁.flatten.length := by
      simp [List.flatten_append]
      omega
    have hr1len := congrArg List.length hr1
    simp only [List.length_append, List.length_cons] at hr1len
    have hr_le : r.length ≤ A.length := by
      rw [hflen] at hlens
      omega
    obtain ⟨w, hw1, hw2⟩ := append_eq_of_le hr2 hr_le
    have hrnc : containsSeq endAudioSent r = false :=
      not_containsSeq_of_segment (l := A) (a := []) (m := r) (b := w) (by simp [hw1]) hA
    have hw2len := congrArg List.length hw2
    simp only [List.length_append] at hw2len
    have hw_le : bs₁.flatten.length ≤ w.length := by omega
    obtain ⟨u, hu1, hu2⟩ := append_eq_of_le hw2 hw_le
    have hAdecomp : A = r ++ bs₁.flatten ++ u := by
      rw [hw1, hu1, List.append_assoc]
    have hflnc : containsSeq endAudioSent bs₁.flatten = false :=
      not_containsSeq_of_segment (l := A) (a := r) (m := bs₁.flatten) (b := u)
        (by rw [hAdecomp, List.append_assoc]) hA
    have hbs₁nc : ∀ b ∈ bs₁, containsSeq endAudioSent b = false := fun b hb =>
      not_containsSeq_of_flatten hb hflnc
    have hunc : containsSeq endAudioSent u = false :=
      not_containsSeq_of_segment (l := A) (a := r ++ bs₁.flatten) (m := u) (b := [])
        (by simp [hAdecomp]) hA
    have hcne : c ≠ [] := by
      intro h0
      rw [h0] at hc
      simp at hc
    -- run the audio loop
    have hloopc : recvAudioLoop endAudioSent [c] = some u := by
      have hcc : containsSeq endAudioSent c = true := by
        rw [hu2]; exact containsSeq_append_self _ _
      have hct : takeBeforeSeq endAudioSent c = u := by
        rw [hu2]
        exact takeBeforeSeq_boundary endAudioSent (by decide) (by decide) u hunc
      simp [recvAudioLoop, hcne, hcc, hct]
    have hloop : recvAudioLoop endAudioSent (bs₁ ++ [c]) = some (bs₁.flatten ++ u) := by
      rw [recvAudioLoop_append endAudioSent bs₁ [c] hne₁ hbs₁nc, hloopc]
      rfl
    -- assemble the client run
    unfold spkrReceiveReply
    rw [hsize]
    simp only [hline, classify_decimal, hsd10, if_true, hdropr, hrnc, hloop]
    simp [hAdecomp, List.append_assoc, hrnc, hloop]

/-- Witness for C2: the reply for payload `"AB"` is `"2\nAB" ++ END_AUDIO`,
and a client receiving it as the chunks `"2\n" / "AB" ++ END_AUDIO`
reconstructs exactly `"AB"` after parsing the size 2. -/
theorem C2_witness :
    ttsProcessRequest (fun _ => .ok [65, 66]) [104] =
      decimalBytes 2 ++ [10] ++ [65, 66] ++ endAudioSent ∧
    spkrReceiveReply [[50, 10], [65, 66] ++ endAudioSent] =
      some (.played 2 [65, 66]) := by
  constructor
  · exact C2_length_prefixed_reply.1 (fun _ => .ok [65, 66]) [104] [104] [65, 66]
      (by decide) rfl
  · have h := C2_length_prefixed_reply.2 [65, 66] [[50, 10]] ([65, 66] ++ endAudioSent)
      (by decide) ⟨by decide, by decide⟩ (by decide) (by decide)
    simpa using h

/-- C2 counterexample: when the whole reply for payload `"A"` arrives in a
single recv chunk, the bytes after the newline (payload and sentinel
together) are written to the audio file unchecked, so the file kept by the client is
`"A" ++ END_AUDIO`, not the 1 declared payload byte. -/
theorem C2_counterexample :
    isValidSplit [ttsSuccessFrame [65]] (ttsSuccessFrame [65]) ∧
    containsSeq endAudioSent [65] = false ∧
    spkrReceiveReply [ttsSuccessFrame [65]] =
      some (.played 1 ([65] ++ endAudioSent)) ∧
    (65 :: endAudioSent : List Nat) ≠ [65] := by
  refine ⟨⟨by decide, by decide⟩, by decide, by decide, by decide⟩

end MrPeabody
